import Mathlib

/-!
# Verification of the gerritscraper crawl-and-assemble pipeline

The repository's callers (`Tutorial.ipynb`, `bin/android_gerrit`,
`bin/eclipse_gerrit`, `bin/romandev_chromium_gerrit`) drive
`gerrit.scraper.GerritScraper.scrap_and_store_changes`, which pages through a
Gerrit change-search endpoint, assembles each change (fetching per-file content
through a bounded worker pool), and fans each assembled record out to a list of
stores with a per-store skip-existing dedup policy.

The `gerrit` package itself (scraper and stores) is not part of the sources
available here, so the pipeline is modelled from the specification
(sections 4.2 Pagination Controller, 4.3 Change Assembler, 4.4 Store/Dedup/
Fan-out, 4.5 Worker Pool); the entry scripts under `bin/` are embedded
directly from their sources.

The embedding is a trace semantics: every externally observable action of a
crawl (page fetch, inter-page sleep, file-fetch task submission, store
`exists`/`save` calls, skip and error log events, pool close) is an `Event`,
and a crawl run denotes a list of events.
-/

namespace Gerrit

/-- File-level metadata of a raw change JSON, as embedded by the
`o=ALL_FILES` query option: a path plus whether the worker-pool content fetch
for that file will fail (`FileFetchError`), and the content the remote would
serve. -/
structure RawFile where
  path : String
  fetchFails : Bool
  content : String
  deriving Repr, DecidableEq

/-- One patch-set of a raw change JSON: a revision number and its file list. -/
structure RawRevision where
  number : Nat
  files : List RawFile
  deriving Repr, DecidableEq

/-- A raw change JSON as returned by the change-search endpoint: a numeric
change id, the id of the current (most recent) revision, and the mapping from
revision id to revision data. -/
structure RawChange where
  changeId : Nat
  currentRevision : String
  revisions : List (String × RawRevision)
  deriving Repr, DecidableEq

/-- File-level persisted record: `failed = true` is the error marker left by
a failed individual file fetch (the entry stays present in the mapping). -/
structure FileRecord where
  path : String
  failed : Bool
  content : Option String
  deriving Repr, DecidableEq

/-- Persisted record of one revision: revision number plus the path-to-file
mapping produced by the worker pool. -/
structure RevisionRecord where
  number : Nat
  files : List (String × FileRecord)
  deriving Repr, DecidableEq

/-- The unit of persistence handed to a store's `save`. -/
structure ChangeRecord where
  changeId : Nat
  revisions : List (String × RevisionRecord)
  deriving Repr, DecidableEq

/-- Modelled from the spec: configuration and environment of one store sink
(`JSONFileStore` / `MongoDBStore`).  `existing` is the set of change ids whose
`exists` call answers true; `existsFails` / `saveFails` model a
`StoreWriteError` raised by `exists` / `save` for this sink. -/
structure StoreCfg where
  skip_existing : Bool
  clear_before : Bool
  existing : List Nat
  existsFails : Bool
  saveFails : Bool
  deriving Repr, DecidableEq

/-- Observable actions of a crawl run.  Store-directed events carry the index
of the store in the crawl's ordered store list. -/
inductive Event where
  | pageFetch (pageIdx : Nat) (returned : Nat)
  | sleep (seconds : Nat)
  | submitTask (changeId : Nat) (revId : String) (path : String)
  | clearStore (storeIdx : Nat)
  | existsCall (storeIdx : Nat) (changeId : Nat)
  | skip (storeIdx : Nat) (changeId : Nat)
  | saveCall (storeIdx : Nat) (rec : ChangeRecord)
  | storeError (storeIdx : Nat) (changeId : Nat)
  | poolClose
  deriving Repr, DecidableEq

/-- Modelled from the spec (§4.3/§4.5): result of one worker-pool file-fetch
task; a failure is recorded as an error marker, never dropped. -/
def fetchFile (f : RawFile) : FileRecord :=
  if f.fetchFails then ⟨f.path, true, none⟩ else ⟨f.path, false, some f.content⟩

/-- Modelled from the spec (§4.3): revision selection — all revisions, or only
the one matching the change's current revision id when `last_revision_only`. -/
def selectRevisions (raw : RawChange) (last_revision_only : Bool) :
    List (String × RawRevision) :=
  if last_revision_only then
    match raw.revisions.find? (fun p => p.1 == raw.currentRevision) with
    | some p => [p]
    | none => []
  else
    raw.revisions

/-- Task-submission events for the files of one revision (one task per file). -/
def submitEvents (cid : Nat) (rid : String) (files : List RawFile) : List Event :=
  files.map (fun f => Event.submitTask cid rid f.path)

/-- Task-submission events for all selected revisions of a change. -/
def revisionsEvents (cid : Nat) : List (String × RawRevision) → List Event
  | [] => []
  | (rid, rev) :: rest => submitEvents cid rid rev.files ++ revisionsEvents cid rest

/-- Modelled from the spec (§4.3): the worker-pool submission trace of
assembling one change. -/
def assembleEvents (raw : RawChange) (last_revision_only : Bool) : List Event :=
  revisionsEvents raw.changeId (selectRevisions raw last_revision_only)

/-- Modelled from the spec (§4.3): the `ChangeRecord` produced once all file
tasks of the change have completed or definitively failed. -/
def assembleRecord (raw : RawChange) (last_revision_only : Bool) : ChangeRecord :=
  ⟨raw.changeId,
   (selectRevisions raw last_revision_only).map
     (fun p => (p.1, ⟨p.2.number, p.2.files.map (fun f => (f.path, fetchFile f))⟩))⟩

/-- Modelled from the spec (§4.4): per-store dedup/persist step for one
assembled change.  With `skip_existing`, `exists` is consulted first; a
`StoreWriteError` from `exists` or `save` is logged and stops only this
store's handling of this change. -/
def processStore (idx : Nat) (s : StoreCfg) (rec : ChangeRecord) : List Event :=
  if s.skip_existing then
    if s.existsFails then
      [Event.existsCall idx rec.changeId, Event.storeError idx rec.changeId]
    else if s.existing.contains rec.changeId then
      [Event.existsCall idx rec.changeId, Event.skip idx rec.changeId]
    else
      [Event.existsCall idx rec.changeId, Event.saveCall idx rec] ++
        (if s.saveFails then [Event.storeError idx rec.changeId] else [])
  else
    Event.saveCall idx rec ::
      (if s.saveFails then [Event.storeError idx rec.changeId] else [])

/-- Fan-out of one assembled record across the ordered store list, indexed
from `idx`; each store is handled independently and sequentially. -/
def storeFanoutAux (rec : ChangeRecord) : Nat → List StoreCfg → List Event
  | _, [] => []
  | idx, s :: rest => processStore idx s rec ++ storeFanoutAux rec (idx + 1) rest

/-- Modelled from the spec (§4.4): fan-out of one assembled record across all
configured stores. -/
def storeFanout (stores : List StoreCfg) (rec : ChangeRecord) : List Event :=
  storeFanoutAux rec 0 stores

/-- Modelled from the spec (§4.2c, §4.4): processing of one change of a page —
full assembly first, then the dedup/fan-out step. -/
def processChange (stores : List StoreCfg) (last_revision_only : Bool)
    (raw : RawChange) : List Event :=
  assembleEvents raw last_revision_only ++
    storeFanout stores (assembleRecord raw last_revision_only)

/-- Processing of the changes of one page, in server-returned order. -/
def pageEvents (stores : List StoreCfg) (last_revision_only : Bool) :
    List RawChange → List Event
  | [] => []
  | c :: rest =>
      processChange stores last_revision_only c ++
        pageEvents stores last_revision_only rest

/-- Crawl parameters of one `scrap_and_store_changes` invocation. -/
structure CrawlCfg where
  n : Nat
  last_revision_only : Bool
  sleep_between_pages : Nat
  stores : List StoreCfg
  deriving Repr, DecidableEq

/-- Modelled from the spec (§4.2): the pagination loop.  `server off` is the
page the change-search endpoint returns at offset `off` (page size `cfg.n`);
`fuel` is the number of page requests still allowed (`pages - pageIdx + 1`).
An empty page terminates the loop normally; otherwise every change of the
page is processed, the offset advances by the returned count, and if more
pages remain one inter-page sleep is issued before the next request. -/
def crawlAux (server : Nat → List RawChange) (cfg : CrawlCfg) :
    Nat → Nat → Nat → List Event
  | 0, _, _ => []
  | fuel + 1, pageIdx, off =>
      let page := server off
      Event.pageFetch pageIdx page.length ::
        (if page.isEmpty then []
         else
           pageEvents cfg.stores cfg.last_revision_only page ++
             (if fuel = 0 then []
              else
                Event.sleep cfg.sleep_between_pages ::
                  crawlAux server cfg fuel (pageIdx + 1) (off + page.length)))

/-- `clear()` events issued once at crawl start for stores configured with
`clear_before`, indexed from `idx`. -/
def clearEvents : Nat → List StoreCfg → List Event
  | _, [] => []
  | idx, s :: rest =>
      (if s.clear_before then [Event.clearStore idx] else []) ++
        clearEvents (idx + 1) rest

/-- Modelled from the spec: `GerritScraper.scrap_and_store_changes(q, n, pages,
last_revision_only)` — clears stores configured with `clear_before`, then runs
the pagination loop for at most `pages` page requests.  The worker pool is not
closed here: callers invoke `scraper.p.close()` themselves. -/
def scrap_and_store_changes (server : Nat → List RawChange) (cfg : CrawlCfg)
    (pages : Nat) : List Event :=
  clearEvents 0 cfg.stores ++ crawlAux server cfg pages 1 0

/-! ## Event classifiers and trace observations -/

/-- Is this event a page-fetch API call? -/
def isPageFetch : Event → Bool
  | Event.pageFetch _ _ => true
  | _ => false

/-- Is this event a file-fetch task submission to the worker pool? -/
def isSubmit : Event → Bool
  | Event.submitTask _ _ _ => true
  | _ => false

/-- Is this event an interaction with a store (`exists`, skip log, `save`,
or a store error log) — i.e. a store observing the change? -/
def isStoreEvt : Event → Bool
  | Event.existsCall _ _ => true
  | Event.skip _ _ => true
  | Event.saveCall _ _ => true
  | Event.storeError _ _ => true
  | _ => false

/-- Number of page-fetch API calls in a trace. -/
def fetchCount (tr : List Event) : Nat := (tr.filter isPageFetch).length

/-- Number of file-fetch task submissions in a trace. -/
def submitCount (tr : List Event) : Nat := (tr.filter isSubmit).length

/-- Pacing view of one event: `some true` for a page fetch, `some false` for
an inter-page sleep, `none` otherwise. -/
def pacingF : Event → Option Bool
  | Event.pageFetch _ _ => some true
  | Event.sleep _ => some false
  | _ => none

/-- The pacing skeleton of a trace: `true` for each page fetch, `false` for
each inter-page sleep, everything else dropped. -/
def pacing (tr : List Event) : List Bool := tr.filterMap pacingF

/-- Decision view of one event: a `save` call maps to `(changeId, false)`,
a skip log event to `(changeId, true)`, everything else to `none`. -/
def decisionF : Event → Option (Nat × Bool)
  | Event.saveCall _ rec => some (rec.changeId, false)
  | Event.skip _ cid => some (cid, true)
  | _ => none

/-- The store/skip decision sequence of a trace: one `(changeId, skipped)`
entry per `save` call (`false`) or skip log event (`true`). -/
def storeDecisions (tr : List Event) : List (Nat × Bool) :=
  tr.filterMap decisionF

/-- Is this event a worker-pool close? -/
def isPoolClose : Event → Bool
  | Event.poolClose => true
  | _ => false

/-- Number of pool-close events in a trace. -/
def poolCloseCount (tr : List Event) : Nat := (tr.filter isPoolClose).length

/-- Total number of file-fetch tasks a change requires: selected revisions
times the files of each selected revision. -/
def totalTasks (raw : RawChange) (last_revision_only : Bool) : Nat :=
  ((selectRevisions raw last_revision_only).map (fun p => p.2.files.length)).sum

/-- Structural completeness of an assembled record relative to its raw change:
every selected revision is present, and every file of every selected revision
(i.e. every submitted file-fetch task) has an entry in the revision's
path-to-`FileRecord` mapping that either completed with the fetched content or
carries the failure marker. -/
def structurallyComplete (raw : RawChange) (last_revision_only : Bool)
    (rec : ChangeRecord) : Prop :=
  rec.changeId = raw.changeId ∧
  rec.revisions.length = (selectRevisions raw last_revision_only).length ∧
  ∀ p ∈ selectRevisions raw last_revision_only,
    ∃ rr : RevisionRecord, (p.1, rr) ∈ rec.revisions ∧
      rr.files.length = p.2.files.length ∧
      ∀ f ∈ p.2.files,
        ∃ fr : FileRecord, (f.path, fr) ∈ rr.files ∧
          (fr.failed = true ∨ fr.content = some f.content)

/-! ## The Tutorial end-to-end scenario

`Tutorial.ipynb` runs `scrap_and_store_changes(q=..., n=5, pages=1,
last_revision_only=True)` against one MongoDB store with
`skip_existing=True`; the logged run shows a page of 5 changes where change
763086 already exists in the store (4 "Storing" and 1 "Skipping" line, in
server order). -/

/-- A raw change with a single revision of `nfiles` files, as in the Tutorial
log (`Processing change <cid>, revision <num>: files <nfiles>`). -/
def mkChange (cid : Nat) (rid : String) (num : Nat) (nfiles : Nat) : RawChange :=
  ⟨cid, rid, [(rid, ⟨num, (List.range nfiles).map (fun i => ⟨toString i, false, "c"⟩)⟩)]⟩

/-- The page of 5 changes of the Tutorial run. -/
def tutorialPage : List RawChange :=
  [mkChange 766962 "r3" 3 3, mkChange 766826 "r1" 1 0, mkChange 763086 "r2" 2 3,
   mkChange 765107 "r2" 2 1, mkChange 764922 "r1" 1 2]

/-- The Tutorial server: one page of 5 changes, nothing beyond. -/
def tutorialServer (off : Nat) : List RawChange :=
  if off == 0 then tutorialPage else []

/-- The Tutorial MongoDB store: `skip_existing=True`, with change 763086
already present. -/
def tutorialStore : StoreCfg := ⟨true, false, [763086], false, false⟩

/-- The Tutorial crawl configuration: `n=5, last_revision_only=True`,
`sleep_between_pages=5`, one store. -/
def tutorialCfg : CrawlCfg := ⟨5, true, 5, [tutorialStore]⟩

/-- The event trace of the Tutorial run (`n=5, pages=1`). -/
def tutorialTrace : List Event := scrap_and_store_changes tutorialServer tutorialCfg 1

/-! ## The entry scripts under `bin/`

Each script builds a `MongoDBStore(db_name=..., clear_before=False,
skip_existing=True)`, builds a scraper over it, calls
`scrap_and_store_changes`, and finally calls `scraper.p.close()` itself.
The scripts are embedded from their sources; the `server` argument stands for
the remote Gerrit instance, and `interruptAt = some k` models a
`KeyboardInterrupt` delivered after `k` events of the crawl trace. -/

/-- Outcome of running an entry script: normal completion with its event
trace, or an uncaught exception together with the events emitted before it. -/
inductive ScriptOutcome where
  | completed (events : List Event)
  | raised (exn : String) (events : List Event)
  deriving Repr, DecidableEq

/-- The events of a script outcome. -/
def ScriptOutcome.events : ScriptOutcome → List Event
  | completed evs => evs
  | raised _ evs => evs

/-- The module-level names `bin/android_gerrit` has bound when line 23
(`scraper = gerrit_scraper.GerritScraper(...)`) executes: the two
`from ... import` bindings of lines 1-2, the two plain imports, the logging
setup names, and the two names assigned inside the `__main__` block before
line 23. -/
def androidGerritNamesAtLine23 : List String :=
  ["MongoDBStore", "GerritScraper", "logging", "sys", "logger", "handler",
   "formatter", "gerrit_url", "mongo_store"]

/-- Python name resolution for line 23 of `bin/android_gerrit`: evaluating
`gerrit_scraper.GerritScraper(...)` first looks up the name `gerrit_scraper`. -/
def androidGerritLine23Lookup : Bool :=
  androidGerritNamesAtLine23.contains "gerrit_scraper"

/-- `bin/android_gerrit`: store construction succeeds (line 21), then line 23
evaluates `gerrit_scraper.GerritScraper(gerrit_url, ...)`; if the name
`gerrit_scraper` is unbound this raises `NameError` before any crawl step, and
nothing catches it.  Otherwise the script would crawl with `n=500,
pages=10000, last_revision_only=True`, close the pool on `KeyboardInterrupt`,
and close the pool after a normal return. -/
def runAndroidGerrit (server : Nat → List RawChange) (interruptAt : Option Nat) :
    ScriptOutcome :=
  let store : StoreCfg := ⟨true, false, [], false, false⟩
  if androidGerritLine23Lookup then
    let tr := scrap_and_store_changes server ⟨500, true, 5 * 60, [store]⟩ 10000
    match interruptAt with
    | none => ScriptOutcome.completed (tr ++ [Event.poolClose])
    | some k => ScriptOutcome.completed (tr.take k ++ [Event.poolClose])
  else
    ScriptOutcome.raised "NameError: name gerrit_scraper is not defined" []

/-- `bin/eclipse_gerrit`: builds the store and scraper, runs
`scrap_and_store_changes(n=30, pages=10000, last_revision_only=True)` with no
exception handler, then calls `scraper.p.close()`.  A `KeyboardInterrupt`
(`interruptAt = some k`) propagates out of the script, so `close` is never
reached on that path. -/
def runEclipseGerrit (server : Nat → List RawChange) (interruptAt : Option Nat) :
    ScriptOutcome :=
  let store : StoreCfg := ⟨true, false, [], false, false⟩
  let tr := scrap_and_store_changes server ⟨30, true, 0, [store]⟩ 10000
  match interruptAt with
  | none => ScriptOutcome.completed (tr ++ [Event.poolClose])
  | some k => ScriptOutcome.raised "KeyboardInterrupt" (tr.take k)

/-- `bin/romandev_chromium_gerrit`: same shape as `bin/eclipse_gerrit` (an
explicit query string, `n=30, pages=10000, last_revision_only=True`, no
exception handler, `scraper.p.close()` on the normal path only). -/
def runRomandevChromiumGerrit (server : Nat → List RawChange)
    (interruptAt : Option Nat) : ScriptOutcome :=
  let store : StoreCfg := ⟨true, false, [], false, false⟩
  let tr := scrap_and_store_changes server ⟨30, true, 0, [store]⟩ 10000
  match interruptAt with
  | none => ScriptOutcome.completed (tr ++ [Event.poolClose])
  | some k => ScriptOutcome.raised "KeyboardInterrupt" (tr.take k)

/-! ## Small concrete instances used to exercise the theorems -/

/-- A store with no dedup and no failures. -/
def plainStore : StoreCfg := ⟨false, false, [], false, false⟩

/-- A store whose `save` raises `StoreWriteError`. -/
def failingSaveStore : StoreCfg := ⟨false, false, [], false, true⟩

/-- A change with two revisions whose current revision is the second one. -/
def twoRevChange : RawChange :=
  ⟨900, "r2", [("r1", ⟨1, [⟨"a", false, "x"⟩, ⟨"b", false, "y"⟩]⟩),
               ("r2", ⟨2, [⟨"a", false, "z"⟩]⟩)]⟩

/-- A change with a single revision whose only file's fetch fails. -/
def failingFileChange : RawChange :=
  ⟨901, "r1", [("r1", ⟨1, [⟨"a", true, "x"⟩]⟩)]⟩

/-- A server returning one change on each of two pages. -/
def twoPageServer (off : Nat) : List RawChange :=
  if off == 0 then [mkChange 800 "r1" 1 1]
  else if off == 1 then [mkChange 801 "r1" 1 1]
  else []

/-! ## Classification of the events of each pipeline stage -/

theorem isSubmit_of_mem_submitEvents {cid : Nat} {rid : String} {files : List RawFile}
    {e : Event} (h : e ∈ submitEvents cid rid files) : isSubmit e = true := by
  simp only [submitEvents, List.mem_map] at h
  obtain ⟨f, _, rfl⟩ := h
  rfl

theorem isSubmit_of_mem_revisionsEvents {cid : Nat} {revs : List (String × RawRevision)}
    {e : Event} (h : e ∈ revisionsEvents cid revs) : isSubmit e = true := by
  induction revs with
  | nil => simp [revisionsEvents] at h
  | cons p rest ih =>
    obtain ⟨rid, rev⟩ := p
    simp only [revisionsEvents, List.mem_append] at h
    rcases h with h | h
    · exact isSubmit_of_mem_submitEvents h
    · exact ih h

theorem isSubmit_of_mem_assembleEvents {raw : RawChange} {lo : Bool} {e : Event}
    (h : e ∈ assembleEvents raw lo) : isSubmit e = true :=
  isSubmit_of_mem_revisionsEvents h

theorem isStoreEvt_of_mem_processStore {idx : Nat} {s : StoreCfg} {rec : ChangeRecord}
    {e : Event} (h : e ∈ processStore idx s rec) : isStoreEvt e = true := by
  unfold processStore at h
  split_ifs at h <;>
    simp only [List.mem_append, List.mem_cons, List.mem_singleton, List.not_mem_nil,
      or_false, or_assoc] at h <;>
    rcases h with rfl | rfl | rfl <;> rfl

theorem isStoreEvt_of_mem_storeFanoutAux {rec : ChangeRecord} {stores : List StoreCfg}
    {idx : Nat} {e : Event} (h : e ∈ storeFanoutAux rec idx stores) :
    isStoreEvt e = true := by
  induction stores generalizing idx with
  | nil => simp [storeFanoutAux] at h
  | cons s rest ih =>
    simp only [storeFanoutAux, List.mem_append] at h
    rcases h with h | h
    · exact isStoreEvt_of_mem_processStore h
    · exact ih h

theorem not_isStoreEvt_of_isSubmit {e : Event} (h : isSubmit e = true) :
    isStoreEvt e = false := by
  cases e <;> simp_all [isSubmit, isStoreEvt]

theorem not_isSubmit_of_isStoreEvt {e : Event} (h : isStoreEvt e = true) :
    isSubmit e = false := by
  cases e <;> simp_all [isSubmit, isStoreEvt]

/-- The events `storeFanoutAux` emits from base index `idx` are exactly the
events of `processStore` at index `idx + j` for each store at position `j`. -/
theorem mem_storeFanoutAux_iff {rec : ChangeRecord} {stores : List StoreCfg}
    {idx : Nat} {e : Event} : e ∈ storeFanoutAux rec idx stores ↔
      ∃ j s, stores[j]? = some s ∧ e ∈ processStore (idx + j) s rec := by
  induction stores generalizing idx with
  | nil => simp [storeFanoutAux]
  | cons s rest ih =>
    simp only [storeFanoutAux, List.mem_append, ih]
    constructor
    · rintro (h | ⟨j, s', hj, hm⟩)
      · exact ⟨0, s, by simp, by simpa using h⟩
      · refine ⟨j + 1, s', by simpa using hj, ?_⟩
        rwa [Nat.add_assoc, Nat.add_comm 1 j] at hm
    · rintro ⟨j, s', hj, hm⟩
      cases j with
      | zero =>
        left
        simp only [List.getElem?_cons_zero, Option.some.injEq] at hj
        subst hj
        simpa using hm
      | succ j =>
        right
        refine ⟨j, s', by simpa using hj, ?_⟩
        rwa [Nat.add_assoc, Nat.add_comm 1 j]

theorem mem_storeFanout_iff {rec : ChangeRecord} {stores : List StoreCfg} {e : Event} :
    e ∈ storeFanout stores rec ↔
      ∃ j s, stores[j]? = some s ∧ e ∈ processStore j s rec := by
  simpa [storeFanout] using @mem_storeFanoutAux_iff rec stores 0 e

/-- Every event of a page's processing belongs to the processing of one of the
page's changes: later changes are unaffected by what happens to earlier ones,
and vice versa. -/
theorem mem_pageEvents_iff {stores : List StoreCfg} {lo : Bool}
    {page : List RawChange} {e : Event} :
    e ∈ pageEvents stores lo page ↔ ∃ raw ∈ page, e ∈ processChange stores lo raw := by
  induction page with
  | nil => simp [pageEvents]
  | cons c rest ih =>
    simp only [pageEvents, List.mem_append, ih, List.mem_cons]
    constructor
    · rintro (h | ⟨raw, hr, hm⟩)
      · exact ⟨c, Or.inl rfl, h⟩
      · exact ⟨raw, Or.inr hr, hm⟩
    · rintro ⟨raw, rfl | hr, hm⟩
      · exact Or.inl hm
      · exact Or.inr ⟨raw, hr, hm⟩

theorem mem_clearEvents {idx : Nat} {stores : List StoreCfg} {e : Event}
    (h : e ∈ clearEvents idx stores) : ∃ j, e = Event.clearStore j := by
  induction stores generalizing idx with
  | nil => simp [clearEvents] at h
  | cons s rest ih =>
    simp only [clearEvents, List.mem_append] at h
    rcases h with h | h
    · by_cases hcb : s.clear_before
      · simp only [hcb, if_true, List.mem_singleton] at h
        exact ⟨idx, h⟩
      · simp [hcb] at h
    · exact ih h

/-- Every event of the pagination loop is a page fetch, an inter-page sleep of
the configured duration, or belongs to the processing of a change of one of
the fetched pages. -/
theorem mem_crawlAux {server : Nat → List RawChange} {cfg : CrawlCfg}
    {fuel pageIdx off : Nat} {e : Event}
    (h : e ∈ crawlAux server cfg fuel pageIdx off) :
    isPageFetch e = true ∨ e = Event.sleep cfg.sleep_between_pages ∨
      ∃ off2 raw, raw ∈ server off2 ∧
        e ∈ processChange cfg.stores cfg.last_revision_only raw := by
  induction fuel generalizing pageIdx off with
  | zero => simp [crawlAux] at h
  | succ fuel ih =>
    rw [crawlAux.eq_2] at h
    simp only [List.mem_cons] at h
    rcases h with rfl | h
    · exact Or.inl rfl
    · split at h
      · simp at h
      · rw [List.mem_append] at h
        rcases h with h | h
        · rcases mem_pageEvents_iff.mp h with ⟨raw, hr, hm⟩
          exact Or.inr (Or.inr ⟨off, raw, hr, hm⟩)
        · split at h
          · simp at h
          · simp only [List.mem_cons] at h
            rcases h with rfl | h
            · exact Or.inr (Or.inl rfl)
            · exact ih h

theorem isStoreEvt_of_mem_storeFanout {rec : ChangeRecord} {stores : List StoreCfg}
    {e : Event} (h : e ∈ storeFanout stores rec) : isStoreEvt e = true :=
  @isStoreEvt_of_mem_storeFanoutAux rec stores 0 e h

/-! ## Pacing and counting lemmas -/

theorem pacingF_eq_none_of_mem_processChange {stores : List StoreCfg} {lo : Bool}
    {raw : RawChange} {e : Event} (h : e ∈ processChange stores lo raw) :
    pacingF e = none := by
  rw [processChange, List.mem_append] at h
  rcases h with h | h
  · have := isSubmit_of_mem_assembleEvents h
    cases e <;> simp_all [isSubmit, pacingF]
  · have := isStoreEvt_of_mem_storeFanout h
    cases e <;> simp_all [isStoreEvt, pacingF]

theorem pacing_append (a b : List Event) : pacing (a ++ b) = pacing a ++ pacing b :=
  List.filterMap_append a b pacingF

theorem pacing_pageEvents (stores : List StoreCfg) (lo : Bool) (page : List RawChange) :
    pacing (pageEvents stores lo page) = [] := by
  apply List.filterMap_eq_nil_iff.mpr
  intro e he
  rcases mem_pageEvents_iff.mp he with ⟨raw, _, hm⟩
  exact pacingF_eq_none_of_mem_processChange hm

theorem pacing_clearEvents (idx : Nat) (stores : List StoreCfg) :
    pacing (clearEvents idx stores) = [] := by
  apply List.filterMap_eq_nil_iff.mpr
  intro e he
  obtain ⟨j, rfl⟩ := mem_clearEvents he
  rfl

theorem fetchCount_append (a b : List Event) :
    fetchCount (a ++ b) = fetchCount a + fetchCount b := by
  simp [fetchCount, List.filter_append]

theorem fetchCount_pageEvents (stores : List StoreCfg) (lo : Bool)
    (page : List RawChange) : fetchCount (pageEvents stores lo page) = 0 := by
  simp only [fetchCount, List.length_eq_zero, List.filter_eq_nil_iff]
  intro e he
  rcases mem_pageEvents_iff.mp he with ⟨raw, _, hm⟩
  have := pacingF_eq_none_of_mem_processChange hm
  cases e <;> simp_all [pacingF, isPageFetch]

theorem fetchCount_clearEvents (idx : Nat) (stores : List StoreCfg) :
    fetchCount (clearEvents idx stores) = 0 := by
  simp only [fetchCount, List.length_eq_zero, List.filter_eq_nil_iff]
  intro e he
  obtain ⟨j, rfl⟩ := mem_clearEvents he
  simp [isPageFetch]

theorem one_le_fetchCount_crawlAux (server : Nat → List RawChange) (cfg : CrawlCfg)
    (fuel pageIdx off : Nat) :
    1 ≤ fetchCount (crawlAux server cfg (fuel + 1) pageIdx off) := by
  rw [crawlAux.eq_2]
  simp only [fetchCount, List.filter_cons, isPageFetch, if_true, List.length_cons]
  omega

theorem pacing_cons_fetch (pi k : Nat) (tr : List Event) :
    pacing (Event.pageFetch pi k :: tr) = true :: pacing tr := rfl

theorem pacing_cons_sleep (s : Nat) (tr : List Event) :
    pacing (Event.sleep s :: tr) = false :: pacing tr := rfl

theorem fetchCount_cons_fetch (pi k : Nat) (tr : List Event) :
    fetchCount (Event.pageFetch pi k :: tr) = fetchCount tr + 1 := by
  simp [fetchCount, List.filter_cons, isPageFetch]

theorem fetchCount_cons_sleep (s : Nat) (tr : List Event) :
    fetchCount (Event.sleep s :: tr) = fetchCount tr := by
  simp [fetchCount, List.filter_cons, isPageFetch]

/-- In any pagination-loop trace, page fetches and inter-page sleeps strictly
alternate, starting and ending with a fetch: exactly one sleep between each
pair of consecutive fetches and none after the last. -/
theorem pacing_crawlAux (server : Nat → List RawChange) (cfg : CrawlCfg) :
    ∀ fuel pageIdx off,
      pacing (crawlAux server cfg fuel pageIdx off) =
        List.intersperse false
          (List.replicate (fetchCount (crawlAux server cfg fuel pageIdx off)) true) := by
  intro fuel
  induction fuel with
  | zero => simp [crawlAux, pacing, fetchCount]
  | succ fuel ih =>
    intro pageIdx off
    rw [crawlAux.eq_2]
    have h0 : fetchCount (pageEvents cfg.stores cfg.last_revision_only (server off)) = 0 :=
      fetchCount_pageEvents _ _ _
    have h1 : pacing (pageEvents cfg.stores cfg.last_revision_only (server off)) = [] :=
      pacing_pageEvents _ _ _
    by_cases hemp : (server off).isEmpty
    · rw [if_pos hemp, pacing_cons_fetch, fetchCount_cons_fetch]
      rfl
    · rw [if_neg hemp]
      by_cases hf : fuel = 0
      · rw [if_pos hf, List.append_nil, pacing_cons_fetch, fetchCount_cons_fetch, h0, h1]
        rfl
      · obtain ⟨fuel', rfl⟩ : ∃ f, fuel = f + 1 := ⟨fuel - 1, by omega⟩
        rw [if_neg hf, pacing_cons_fetch, pacing_append, h1, pacing_cons_sleep,
          List.nil_append, fetchCount_cons_fetch, fetchCount_append, h0,
          fetchCount_cons_sleep, Nat.zero_add]
        rw [ih (pageIdx + 1) (off + (server off).length)]
        have hk := one_le_fetchCount_crawlAux server cfg fuel' (pageIdx + 1)
          (off + (server off).length)
        obtain ⟨k, hkk⟩ : ∃ k,
            fetchCount (crawlAux server cfg (fuel' + 1) (pageIdx + 1)
              (off + (server off).length)) = k + 1 :=
          ⟨fetchCount (crawlAux server cfg (fuel' + 1) (pageIdx + 1)
              (off + (server off).length)) - 1, by omega⟩
        rw [hkk, List.replicate_succ, List.replicate_succ, List.replicate_succ,
          List.intersperse_cons_cons]

/-! ## Task-count lemmas -/

theorem submitCount_append (a b : List Event) :
    submitCount (a ++ b) = submitCount a + submitCount b := by
  simp [submitCount, List.filter_append]

theorem submitCount_submitEvents (cid : Nat) (rid : String) (files : List RawFile) :
    submitCount (submitEvents cid rid files) = files.length := by
  have h : (submitEvents cid rid files).filter isSubmit = submitEvents cid rid files :=
    List.filter_eq_self.mpr (fun e he => isSubmit_of_mem_submitEvents he)
  rw [submitCount, h, submitEvents, List.length_map]

theorem submitCount_revisionsEvents (cid : Nat) (revs : List (String × RawRevision)) :
    submitCount (revisionsEvents cid revs) =
      (revs.map (fun p => p.2.files.length)).sum := by
  induction revs with
  | nil => simp [revisionsEvents, submitCount]
  | cons p rest ih =>
    obtain ⟨rid, rev⟩ := p
    simp only [revisionsEvents, List.map_cons, List.sum_cons]
    rw [submitCount_append, submitCount_submitEvents, ih]

theorem submitCount_assembleEvents (raw : RawChange) (lo : Bool) :
    submitCount (assembleEvents raw lo) = totalTasks raw lo := by
  rw [assembleEvents, submitCount_revisionsEvents, totalTasks]

theorem submitCount_storeFanout (stores : List StoreCfg) (rec : ChangeRecord) :
    submitCount (storeFanout stores rec) = 0 := by
  simp only [submitCount, List.length_eq_zero, List.filter_eq_nil_iff]
  intro e he
  have h := not_isSubmit_of_isStoreEvt (isStoreEvt_of_mem_storeFanout he)
  simp [h]

/-- The worker-pool submissions of a change's processing are exactly the
change's task count, whatever the stores later decide. -/
theorem submitCount_processChange (stores : List StoreCfg) (lo : Bool) (raw : RawChange) :
    submitCount (processChange stores lo raw) = totalTasks raw lo := by
  rw [processChange, submitCount_append, submitCount_assembleEvents,
    submitCount_storeFanout, Nat.add_zero]

/-! ## Structural completeness of assembly -/

theorem assembleRecord_structurallyComplete (raw : RawChange) (lo : Bool) :
    structurallyComplete raw lo (assembleRecord raw lo) := by
  refine ⟨rfl, by simp [assembleRecord], ?_⟩
  intro p hp
  refine ⟨⟨p.2.number, p.2.files.map (fun f => (f.path, fetchFile f))⟩, ?_, by simp, ?_⟩
  · exact List.mem_map_of_mem _ hp
  · intro f hf
    refine ⟨fetchFile f, List.mem_map_of_mem _ hf, ?_⟩
    by_cases hb : f.fetchFails
    · exact Or.inl (by simp [fetchFile, hb])
    · exact Or.inr (by simp [fetchFile, hb])

/-! ## Characterization of the per-store dedup step -/

/-- `save` is called on a store for a change exactly when the store is not in
skip mode, or its `exists` check ran and answered false. -/
theorem saveCall_mem_processStore_iff {j idx : Nat} {s : StoreCfg} {rec r : ChangeRecord} :
    Event.saveCall j r ∈ processStore idx s rec ↔
      j = idx ∧ r = rec ∧
        (s.skip_existing = false ∨
          (s.existsFails = false ∧ s.existing.contains rec.changeId = false)) := by
  unfold processStore
  split_ifs with h1 h2 h3 h4 h5 <;>
    simp_all [List.mem_append, List.mem_cons, List.mem_singleton, Bool.not_eq_true]

/-- A skip log event is issued for a store and change exactly when the store
is in skip mode and its `exists` check ran and answered true. -/
theorem skip_mem_processStore_iff {j idx : Nat} {s : StoreCfg} {rec : ChangeRecord}
    {c : Nat} :
    Event.skip j c ∈ processStore idx s rec ↔
      j = idx ∧ c = rec.changeId ∧ s.skip_existing = true ∧ s.existsFails = false ∧
        s.existing.contains rec.changeId = true := by
  unfold processStore
  split_ifs with h1 h2 h3 h4 h5 <;>
    simp_all [List.mem_append, List.mem_cons, List.mem_singleton, Bool.not_eq_true]

/-! ## Ordering helper -/

/-- In a concatenation whose left part has no `q`-events and whose right part
has no `p`-events, every index holding a `p`-event precedes every index
holding a `q`-event. -/
theorem lt_of_append_disjoint {α : Type} {p q : α → Bool} {l1 l2 : List α}
    (h1 : ∀ e ∈ l2, p e = false) (h2 : ∀ e ∈ l1, q e = false) (i j : Nat)
    (hi : i < (l1 ++ l2).length) (hj : j < (l1 ++ l2).length)
    (hpi : p ((l1 ++ l2).get ⟨i, hi⟩) = true) (hqj : q ((l1 ++ l2).get ⟨j, hj⟩) = true) :
    i < j := by
  have hi1 : i < l1.length := by
    by_contra hle
    push_neg at hle
    have hmem : (l1 ++ l2).get ⟨i, hi⟩ ∈ l2 := by
      rw [List.get_eq_getElem, List.getElem_append_right hle]
      exact List.getElem_mem _
    rw [h1 _ hmem] at hpi
    cases hpi
  have hj1 : l1.length ≤ j := by
    by_contra hlt
    push_neg at hlt
    have hmem : (l1 ++ l2).get ⟨j, hj⟩ ∈ l1 := by
      rw [List.get_eq_getElem, List.getElem_append_left hlt]
      exact List.getElem_mem _
    rw [h2 _ hmem] at hqj
    cases hqj
  omega

/-- Within the processing of one change, every worker-pool submission index
precedes every store-interaction index: dedup and persistence happen only
after assembly. -/
theorem submit_before_store_processChange (stores : List StoreCfg) (lo : Bool)
    (raw : RawChange) (i j : Nat)
    (hi : i < (processChange stores lo raw).length)
    (hj : j < (processChange stores lo raw).length)
    (hs : isSubmit ((processChange stores lo raw).get ⟨i, hi⟩) = true)
    (ht : isStoreEvt ((processChange stores lo raw).get ⟨j, hj⟩) = true) :
    i < j := by
  apply lt_of_append_disjoint
    (fun e he => not_isSubmit_of_isStoreEvt (isStoreEvt_of_mem_storeFanout he))
    (fun e he => not_isStoreEvt_of_isSubmit (isSubmit_of_mem_assembleEvents he))
    i j hi hj hs ht

/-! ## Fetch-bound and pool-close lemmas -/

/-- The pagination loop issues at most `fuel` change-search API calls. -/
theorem fetchCount_crawlAux_le (server : Nat → List RawChange) (cfg : CrawlCfg) :
    ∀ fuel pageIdx off, fetchCount (crawlAux server cfg fuel pageIdx off) ≤ fuel := by
  intro fuel
  induction fuel with
  | zero => intro pageIdx off; simp [crawlAux, fetchCount]
  | succ fuel ih =>
    intro pageIdx off
    rw [crawlAux.eq_2]
    by_cases hemp : (server off).isEmpty
    · rw [if_pos hemp, fetchCount_cons_fetch]
      simp [fetchCount]
    · rw [if_neg hemp]
      by_cases hf : fuel = 0
      · rw [if_pos hf, fetchCount_cons_fetch, List.append_nil, fetchCount_pageEvents]
        omega
      · rw [if_neg hf, fetchCount_cons_fetch, fetchCount_append, fetchCount_pageEvents,
          fetchCount_cons_sleep, Nat.zero_add]
        have := ih (pageIdx + 1) (off + (server off).length)
        omega

/-- The crawl itself never closes the worker pool. -/
theorem poolClose_not_mem_scrap (server : Nat → List RawChange) (cfg : CrawlCfg)
    (pages : Nat) : Event.poolClose ∉ scrap_and_store_changes server cfg pages := by
  intro h
  rw [scrap_and_store_changes, List.mem_append] at h
  rcases h with h | h
  · obtain ⟨j, hj⟩ := mem_clearEvents h
    simp at hj
  · rcases mem_crawlAux h with hf | hs | ⟨off2, raw, hr, hm⟩
    · simp [isPageFetch] at hf
    · simp at hs
    · rw [processChange, List.mem_append] at hm
      rcases hm with hm | hm
      · have := isSubmit_of_mem_assembleEvents hm
        simp [isSubmit] at this
      · have := isStoreEvt_of_mem_storeFanout hm
        simp [isStoreEvt] at this

/-! ## The claims -/

/-- C4: for every crawl, the controller performs exactly one sleep of
`sleep_between_pages` seconds between each pair of consecutive page fetches
and zero sleeps after the final page fetch, whether the crawl ends by an
empty page or by exhausting `max_pages`: the fetch/sleep skeleton of the
trace is fetches interspersed with single sleeps, and every sleep has the
configured duration. -/
theorem C4_inter_page_pacing (server : Nat → List RawChange) (cfg : CrawlCfg)
    (pages : Nat) :
    pacing (scrap_and_store_changes server cfg pages) =
      List.intersperse false
        (List.replicate (fetchCount (scrap_and_store_changes server cfg pages)) true) ∧
    ∀ secs, Event.sleep secs ∈ scrap_and_store_changes server cfg pages →
      secs = cfg.sleep_between_pages := by
  constructor
  · rw [scrap_and_store_changes, pacing_append, pacing_clearEvents, List.nil_append,
      fetchCount_append, fetchCount_clearEvents, Nat.zero_add]
    exact pacing_crawlAux server cfg pages 1 0
  · intro secs h
    rw [scrap_and_store_changes, List.mem_append] at h
    rcases h with h | h
    · obtain ⟨j, hj⟩ := mem_clearEvents h
      simp at hj
    · rcases mem_crawlAux h with hf | hs | ⟨off2, raw, hr, hm⟩
      · simp [isPageFetch] at hf
      · injection hs
      · have := pacingF_eq_none_of_mem_processChange hm
        simp [pacingF] at this

/-- C4 witness: in a two-page crawl the configured inter-page sleep of 7
seconds occurs and indeed equals the configuration's duration. -/
theorem C4_inter_page_pacing_witness :
    Event.sleep 7 ∈ scrap_and_store_changes twoPageServer ⟨1, true, 7, [plainStore]⟩ 2 ∧
    7 = (⟨1, true, 7, [plainStore]⟩ : CrawlCfg).sleep_between_pages :=
  ⟨by decide,
   (C4_inter_page_pacing twoPageServer ⟨1, true, 7, [plainStore]⟩ 2).2 7 (by decide)⟩

/-- C8: the crawl loop terminates for every input; it stops normally as soon
as a page fetch returns an empty list (the fetch of the empty page is the last
event of the loop), and issues at most `max_pages` change-search API calls
however many results the server holds. -/
theorem C8_termination_and_page_bound :
    (∀ (server : Nat → List RawChange) (cfg : CrawlCfg) (pages : Nat),
      fetchCount (scrap_and_store_changes server cfg pages) ≤ pages) ∧
    (∀ (server : Nat → List RawChange) (cfg : CrawlCfg) (fuel pageIdx off : Nat),
      server off = [] →
      crawlAux server cfg (fuel + 1) pageIdx off = [Event.pageFetch pageIdx 0]) := by
  constructor
  · intro server cfg pages
    rw [scrap_and_store_changes, fetchCount_append, fetchCount_clearEvents, Nat.zero_add]
    exact fetchCount_crawlAux_le server cfg pages 1 0
  · intro server cfg fuel pageIdx off h
    rw [crawlAux.eq_2]
    simp [h]

/-- C8 witness: a server with no changes at all is fetched once and the loop
ends there with no further events. -/
theorem C8_witness :
    (fun _ : Nat => ([] : List RawChange)) 0 = [] ∧
    crawlAux (fun _ => []) tutorialCfg 1 1 0 = [Event.pageFetch 1 0] :=
  ⟨rfl, C8_termination_and_page_bound.2 (fun _ => []) tutorialCfg 0 1 0 rfl⟩

/-- C9: every execution of the `bin/android_gerrit` entry script raises
`NameError` when constructing the scraper, because line 23 references the
unbound name `gerrit_scraper` (the import on line 2 binds only
`GerritScraper`); consequently this entry point performs no page fetch,
assembly, or store save. -/
theorem C9_android_gerrit_name_error :
    androidGerritLine23Lookup = false ∧
    (∀ (server : Nat → List RawChange) (interruptAt : Option Nat),
      runAndroidGerrit server interruptAt =
        ScriptOutcome.raised "NameError: name gerrit_scraper is not defined" []) ∧
    (∀ (server : Nat → List RawChange) (interruptAt : Option Nat),
      (runAndroidGerrit server interruptAt).events = []) := by
  refine ⟨by decide, fun server interruptAt => ?_, fun server interruptAt => ?_⟩
  · rw [runAndroidGerrit, if_neg (by decide)]
  · rw [runAndroidGerrit, if_neg (by decide)]
    rfl

/-- C10: `scrap_and_store_changes` never closes the worker pool itself; the
pool is released only when the caller explicitly appends the close step, and
the `eclipse_gerrit` and `romandev_chromium_gerrit` entry points reach
`scraper.p.close()` only on the normal-return path — a `KeyboardInterrupt`
propagates out and no close event is ever emitted on that path. -/
theorem C10_pool_closed_by_caller_only :
    (∀ (server : Nat → List RawChange) (cfg : CrawlCfg) (pages : Nat),
      poolCloseCount (scrap_and_store_changes server cfg pages) = 0) ∧
    (∀ server : Nat → List RawChange,
      runEclipseGerrit server none =
        ScriptOutcome.completed
          (scrap_and_store_changes server ⟨30, true, 0, [⟨true, false, [], false, false⟩]⟩
              10000 ++ [Event.poolClose])) ∧
    (∀ (server : Nat → List RawChange) (k : Nat),
      poolCloseCount (runEclipseGerrit server (some k)).events = 0) ∧
    (∀ server : Nat → List RawChange,
      runRomandevChromiumGerrit server none =
        ScriptOutcome.completed
          (scrap_and_store_changes server ⟨30, true, 0, [⟨true, false, [], false, false⟩]⟩
              10000 ++ [Event.poolClose])) ∧
    (∀ (server : Nat → List RawChange) (k : Nat),
      poolCloseCount (runRomandevChromiumGerrit server (some k)).events = 0) := by
  have hnotp : ∀ (server : Nat → List RawChange) (cfg : CrawlCfg) (pages : Nat) (e : Event),
      e ∈ scrap_and_store_changes server cfg pages → isPoolClose e = false := by
    intro server cfg pages e he
    cases e <;> try rfl
    exact absurd he (poolClose_not_mem_scrap server cfg pages)
  refine ⟨?_, fun server => rfl, ?_, fun server => rfl, ?_⟩
  · intro server cfg pages
    simp only [poolCloseCount, List.length_eq_zero, List.filter_eq_nil_iff]
    intro e he
    simp [hnotp server cfg pages e he]
  · intro server k
    simp only [poolCloseCount, List.length_eq_zero, List.filter_eq_nil_iff]
    intro e he
    simp [hnotp server _ 10000 e (List.mem_of_mem_take he)]
  · intro server k
    simp only [poolCloseCount, List.length_eq_zero, List.filter_eq_nil_iff]
    intro e he
    simp [hnotp server _ 10000 e (List.mem_of_mem_take he)]

/-- Every `save` call of a full crawl goes to a known store of the
configuration, with the assembled record of some raw change, and only when
that store's dedup admitted the change. -/
theorem saveCall_mem_scrap {server : Nat → List RawChange} {cfg : CrawlCfg}
    {pages idx : Nat} {rec : ChangeRecord}
    (h : Event.saveCall idx rec ∈ scrap_and_store_changes server cfg pages) :
    ∃ s raw, cfg.stores[idx]? = some s ∧
      rec = assembleRecord raw cfg.last_revision_only ∧
      (s.skip_existing = false ∨
        (s.existsFails = false ∧ s.existing.contains rec.changeId = false)) := by
  rw [scrap_and_store_changes, List.mem_append] at h
  rcases h with h | h
  · obtain ⟨j, hj⟩ := mem_clearEvents h
    simp at hj
  · rcases mem_crawlAux h with hf | hs | ⟨off2, raw, hr, hm⟩
    · simp [isPageFetch] at hf
    · simp at hs
    · rw [processChange, List.mem_append] at hm
      rcases hm with hm | hm
      · have := isSubmit_of_mem_assembleEvents hm
        simp [isSubmit] at this
      · obtain ⟨j, s, hj, hp⟩ := mem_storeFanout_iff.mp hm
        obtain ⟨hji, hrec, hcond⟩ := saveCall_mem_processStore_iff.mp hp
        subst hji
        subst hrec
        exact ⟨s, raw, hj, rfl, hcond⟩

/-- C1: for every store configured with `skip_existing` and every change whose
id the store's `exists` reports as present, the crawl never calls that store's
`save` for that change and logs a skip event instead; and in the Tutorial run
(a page of 5 changes with `n=5, pages=1`, change 763086 already in the
skip-configured store) exactly 4 `save` calls and 1 skip are issued, in the
server-returned order of the page. -/
theorem C1_skip_existing_dedup :
    (∀ (server : Nat → List RawChange) (cfg : CrawlCfg) (pages idx : Nat)
        (s : StoreCfg) (r : ChangeRecord),
      cfg.stores[idx]? = some s → s.skip_existing = true →
      s.existing.contains r.changeId = true →
      Event.saveCall idx r ∉ scrap_and_store_changes server cfg pages) ∧
    (∀ (stores : List StoreCfg) (lo : Bool) (raw : RawChange) (idx : Nat)
        (s : StoreCfg),
      stores[idx]? = some s → s.skip_existing = true → s.existsFails = false →
      s.existing.contains raw.changeId = true →
      Event.skip idx raw.changeId ∈ processChange stores lo raw) ∧
    storeDecisions tutorialTrace =
      [(766962, false), (766826, false), (763086, true), (765107, false),
       (764922, false)] ∧
    ((storeDecisions tutorialTrace).filter (fun d => d.2 == false)).length = 4 ∧
    ((storeDecisions tutorialTrace).filter (fun d => d.2 == true)).length = 1 := by
  refine ⟨?_, ?_, by decide, by decide, by decide⟩
  · intro server cfg pages idx s r hstore hskip hcont hmem
    obtain ⟨s', raw, hj, hrec, hcond⟩ := saveCall_mem_scrap hmem
    rw [hstore] at hj
    injection hj with he
    subst he
    rcases hcond with hc | ⟨hef, hc⟩
    · rw [hskip] at hc
      cases hc
    · rw [hcont] at hc
      cases hc
  · intro stores lo raw idx s hstore hskip hef hcont
    rw [processChange]
    refine List.mem_append.mpr (Or.inr (mem_storeFanout_iff.mpr
      ⟨idx, s, hstore, skip_mem_processStore_iff.mpr ⟨rfl, rfl, hskip, hef, ?_⟩⟩))
    exact hcont

/-- C1 witness: in the Tutorial configuration, the already-present change
763086 gets a skip log event in its processing. -/
theorem C1_skip_existing_dedup_witness :
    [tutorialStore][0]? = some tutorialStore ∧
    Event.skip 0 (mkChange 763086 "r2" 2 3).changeId ∈
      processChange [tutorialStore] true (mkChange 763086 "r2" 2 3) :=
  ⟨by decide,
   C1_skip_existing_dedup.2.1 [tutorialStore] true (mkChange 763086 "r2" 2 3) 0
     tutorialStore (by decide) (by decide) (by decide) (by decide)⟩

/-- C2: a `ChangeRecord` is structurally complete before any store observes
it: assembly always yields a record with every selected revision present and
every submitted file task completed or marked failed; every record a `save`
call hands to a store during a crawl is such an assembled record; and within
a change's processing every task submission precedes every store
interaction. -/
theorem C2_structural_completeness_before_stores :
    (∀ (raw : RawChange) (lo : Bool),
      structurallyComplete raw lo (assembleRecord raw lo)) ∧
    (∀ (server : Nat → List RawChange) (cfg : CrawlCfg) (pages idx : Nat)
        (rec : ChangeRecord),
      Event.saveCall idx rec ∈ scrap_and_store_changes server cfg pages →
      ∃ raw, rec = assembleRecord raw cfg.last_revision_only ∧
        structurallyComplete raw cfg.last_revision_only rec) ∧
    (∀ (stores : List StoreCfg) (lo : Bool) (raw : RawChange) (i j : Nat)
        (hi : i < (processChange stores lo raw).length)
        (hj : j < (processChange stores lo raw).length),
      isSubmit ((processChange stores lo raw).get ⟨i, hi⟩) = true →
      isStoreEvt ((processChange stores lo raw).get ⟨j, hj⟩) = true → i < j) := by
  refine ⟨assembleRecord_structurallyComplete, ?_, submit_before_store_processChange⟩
  intro server cfg pages idx rec h
  obtain ⟨s, raw, hj, hrec, hcond⟩ := saveCall_mem_scrap h
  exact ⟨raw, hrec, hrec ▸ assembleRecord_structurallyComplete raw cfg.last_revision_only⟩

/-- C2 witness: the record saved for Tutorial change 766962 is the assembled
record of some raw change and is structurally complete. -/
theorem C2_structural_completeness_witness :
    Event.saveCall 0 (assembleRecord (mkChange 766962 "r3" 3 3) true) ∈ tutorialTrace ∧
    ∃ raw, assembleRecord (mkChange 766962 "r3" 3 3) true =
        assembleRecord raw tutorialCfg.last_revision_only ∧
      structurallyComplete raw tutorialCfg.last_revision_only
        (assembleRecord (mkChange 766962 "r3" 3 3) true) :=
  ⟨by decide,
   C2_structural_completeness_before_stores.2.1 tutorialServer tutorialCfg 1 0
     (assembleRecord (mkChange 766962 "r3" 3 3) true) (by decide)⟩

/-- C3: every change of a page is fully assembled exactly once before the
per-store dedup decision is evaluated — the submission count equals the
change's task count whatever the stores decide, and all submissions precede
all store interactions; and one store skipping a change does not prevent
`save` on another store of the same crawl. -/
theorem C3_assemble_once_dedup_after :
    (∀ (stores : List StoreCfg) (lo : Bool) (raw : RawChange),
      submitCount (processChange stores lo raw) = totalTasks raw lo) ∧
    (∀ (stores : List StoreCfg) (lo : Bool) (raw : RawChange) (i j : Nat)
        (hi : i < (processChange stores lo raw).length)
        (hj : j < (processChange stores lo raw).length),
      isSubmit ((processChange stores lo raw).get ⟨i, hi⟩) = true →
      isStoreEvt ((processChange stores lo raw).get ⟨j, hj⟩) = true → i < j) ∧
    (∀ (stores : List StoreCfg) (lo : Bool) (raw : RawChange) (i j : Nat)
        (si sj : StoreCfg), i ≠ j →
      stores[i]? = some si → stores[j]? = some sj →
      si.skip_existing = true → si.existsFails = false →
      si.existing.contains raw.changeId = true →
      (sj.skip_existing = false ∨
        (sj.existsFails = false ∧ sj.existing.contains raw.changeId = false)) →
      Event.skip i raw.changeId ∈ processChange stores lo raw ∧
      Event.saveCall j (assembleRecord raw lo) ∈ processChange stores lo raw) := by
  refine ⟨submitCount_processChange, submit_before_store_processChange, ?_⟩
  intro stores lo raw i j si sj hij hi hj hskip hef hcont hok
  constructor
  · rw [processChange]
    refine List.mem_append.mpr (Or.inr (mem_storeFanout_iff.mpr
      ⟨i, si, hi, skip_mem_processStore_iff.mpr ⟨rfl, rfl, hskip, hef, ?_⟩⟩))
    exact hcont
  · rw [processChange]
    refine List.mem_append.mpr (Or.inr (mem_storeFanout_iff.mpr
      ⟨j, sj, hj, saveCall_mem_processStore_iff.mpr ⟨rfl, rfl, ?_⟩⟩))
    exact hok

/-- C3 witness: with a skip-configured store first and a plain store second,
change 763086 is skipped by the first store and saved by the second in one
processing. -/
theorem C3_assemble_once_dedup_after_witness :
    (0 : Nat) ≠ 1 ∧
    Event.skip 0 (mkChange 763086 "r2" 2 3).changeId ∈
        processChange [tutorialStore, plainStore] true (mkChange 763086 "r2" 2 3) ∧
    Event.saveCall 1 (assembleRecord (mkChange 763086 "r2" 2 3) true) ∈
        processChange [tutorialStore, plainStore] true (mkChange 763086 "r2" 2 3) :=
  ⟨by decide,
   (C3_assemble_once_dedup_after.2.2 [tutorialStore, plainStore] true
      (mkChange 763086 "r2" 2 3) 0 1 tutorialStore plainStore (by decide) (by decide)
      (by decide) (by decide) (by decide) (by decide) (Or.inl (by decide))).1,
   (C3_assemble_once_dedup_after.2.2 [tutorialStore, plainStore] true
      (mkChange 763086 "r2" 2 3) 0 1 tutorialStore plainStore (by decide) (by decide)
      (by decide) (by decide) (by decide) (by decide) (Or.inl (by decide))).2⟩

/-- C5: the number of file-fetch tasks submitted for a change equals the
number of selected revisions times the files of each selected revision (their
sum over the selected revisions), and with `last_revision_only=true` exactly
one revision — the change's current one — is selected even when the raw JSON
lists several. -/
theorem C5_task_count_last_revision :
    (∀ (stores : List StoreCfg) (lo : Bool) (raw : RawChange),
      submitCount (processChange stores lo raw) =
        ((selectRevisions raw lo).map (fun p => p.2.files.length)).sum) ∧
    (∀ raw : RawChange,
      (raw.revisions.find? (fun p => p.1 == raw.currentRevision)).isSome →
      (selectRevisions raw true).length = 1 ∧
      ∀ p ∈ selectRevisions raw true, p.1 = raw.currentRevision) := by
  constructor
  · intro stores lo raw
    rw [submitCount_processChange, totalTasks]
  · intro raw hsome
    obtain ⟨p, hp⟩ := Option.isSome_iff_exists.mp hsome
    have hsel : selectRevisions raw true = [p] := by
      rw [selectRevisions, if_pos rfl, hp]
    refine ⟨by rw [hsel]; rfl, ?_⟩
    intro q hq
    rw [hsel, List.mem_singleton] at hq
    subst hq
    have hbeq := List.find?_some hp
    exact eq_of_beq hbeq

/-- C5 witness: a change listing two revisions has exactly the current one
selected under `last_revision_only`. -/
theorem C5_task_count_last_revision_witness :
    (twoRevChange.revisions.find?
        (fun p => p.1 == twoRevChange.currentRevision)).isSome = true ∧
    (selectRevisions twoRevChange true).length = 1 ∧
    ∀ p ∈ selectRevisions twoRevChange true, p.1 = twoRevChange.currentRevision :=
  ⟨by decide,
   (C5_task_count_last_revision.2 twoRevChange (by decide)).1,
   (C5_task_count_last_revision.2 twoRevChange (by decide)).2⟩

/-- C6: a failed individual file fetch leaves the file present in the
revision's path-to-record mapping with the error marker, the change's record
is still handed to the stores, and neither the change nor the rest of the
page is aborted. -/
theorem C6_failed_file_marked_not_absent :
    ∀ (stores : List StoreCfg) (lo : Bool) (raw : RawChange) (rid : String)
      (rev : RawRevision) (f : RawFile),
      (rid, rev) ∈ selectRevisions raw lo → f ∈ rev.files → f.fetchFails = true →
      (∃ rr : RevisionRecord, (rid, rr) ∈ (assembleRecord raw lo).revisions ∧
        (f.path, (⟨f.path, true, none⟩ : FileRecord)) ∈ rr.files) ∧
      (∀ (idx : Nat) (s : StoreCfg), stores[idx]? = some s →
        s.skip_existing = false →
        Event.saveCall idx (assembleRecord raw lo) ∈ processChange stores lo raw) ∧
      (∀ (page : List RawChange) (c2 : RawChange) (e : Event), c2 ∈ page →
        e ∈ processChange stores lo c2 → e ∈ pageEvents stores lo page) := by
  intro stores lo raw rid rev f hrev hf hff
  refine ⟨?_, ?_, ?_⟩
  · refine ⟨⟨rev.number, rev.files.map (fun g => (g.path, fetchFile g))⟩, ?_, ?_⟩
    · exact List.mem_map_of_mem _ hrev
    · have hmem := List.mem_map_of_mem (fun g => (g.path, fetchFile g)) hf
      simpa [fetchFile, hff] using hmem
  · intro idx s hst hskip
    rw [processChange]
    exact List.mem_append.mpr (Or.inr (mem_storeFanout_iff.mpr
      ⟨idx, s, hst, saveCall_mem_processStore_iff.mpr ⟨rfl, rfl, Or.inl hskip⟩⟩))
  · intro page c2 e hc2 he
    exact mem_pageEvents_iff.mpr ⟨c2, hc2, he⟩

/-- C6 witness: the change whose only file's fetch fails still gets a record
with that path present and marked failed, and is still saved to a plain
store. -/
theorem C6_failed_file_witness :
    ("r1", (⟨1, [⟨"a", true, "x"⟩]⟩ : RawRevision)) ∈ selectRevisions failingFileChange true ∧
    (∃ rr : RevisionRecord,
        ("r1", rr) ∈ (assembleRecord failingFileChange true).revisions ∧
        ("a", (⟨"a", true, none⟩ : FileRecord)) ∈ rr.files) ∧
    Event.saveCall 0 (assembleRecord failingFileChange true) ∈
      processChange [plainStore] true failingFileChange :=
  ⟨by decide,
   (C6_failed_file_marked_not_absent [plainStore] true failingFileChange "r1"
      ⟨1, [⟨"a", true, "x"⟩]⟩ ⟨"a", true, "x"⟩ (by decide) (by decide) (by decide)).1,
   (C6_failed_file_marked_not_absent [plainStore] true failingFileChange "r1"
      ⟨1, [⟨"a", true, "x"⟩]⟩ ⟨"a", true, "x"⟩ (by decide) (by decide) (by decide)).2.1
     0 plainStore (by decide) (by decide)⟩

/-- C7: a `StoreWriteError` raised by one store's `save` or `exists` for a
change neither prevents `save` from being attempted on another configured
store for the same change nor aborts the crawl loop. -/
theorem C7_store_error_isolated :
    ∀ (stores : List StoreCfg) (lo : Bool) (raw : RawChange) (i j : Nat)
      (sA sB : StoreCfg), i ≠ j →
      stores[i]? = some sA → stores[j]? = some sB →
      (sA.saveFails = true ∨ sA.existsFails = true) →
      (sB.skip_existing = false ∨
        (sB.existsFails = false ∧ sB.existing.contains raw.changeId = false)) →
      Event.saveCall j (assembleRecord raw lo) ∈ processChange stores lo raw ∧
      (∀ (page : List RawChange) (c2 : RawChange) (e : Event), c2 ∈ page →
        e ∈ processChange stores lo c2 → e ∈ pageEvents stores lo page) := by
  intro stores lo raw i j sA sB hij hA hB hAfail hBok
  constructor
  · rw [processChange]
    refine List.mem_append.mpr (Or.inr (mem_storeFanout_iff.mpr
      ⟨j, sB, hB, saveCall_mem_processStore_iff.mpr ⟨rfl, rfl, ?_⟩⟩))
    exact hBok
  · intro page c2 e hc2 he
    exact mem_pageEvents_iff.mpr ⟨c2, hc2, he⟩

/-- C7 witness: with a save-failing store first and a plain store second, the
plain store still gets the `save` call for the same change. -/
theorem C7_store_error_isolated_witness :
    [failingSaveStore, plainStore][0]? = some failingSaveStore ∧
    Event.saveCall 1 (assembleRecord (mkChange 800 "r1" 1 1) true) ∈
      processChange [failingSaveStore, plainStore] true (mkChange 800 "r1" 1 1) :=
  ⟨by decide,
   (C7_store_error_isolated [failingSaveStore, plainStore] true
      (mkChange 800 "r1" 1 1) 0 1 failingSaveStore plainStore (by decide) (by decide)
      (by decide) (Or.inl (by decide)) (Or.inl (by decide))).1⟩

end Gerrit
